import Mathlib

/-!
Verification of the microblog core: the token-bucket rate limiter
(`app/rate_limit.py`) and the feed ranking / assembly logic
(`app/services/ranking.py`, `app/services/posts.py`,
`app/routers/posts.py`).

Floats in the Python source are modelled as exact rationals (ℚ); the one
real-exponentiation in the recency decay (`0.5 ** x`) forces the score
functions into ℝ.  Timestamps are rationals (seconds).
-/

namespace Microblog

/-! ## Token bucket — `app/rate_limit.py`, class `TokenBucket` -/

/-- State of `TokenBucket`: fields `rate`, `max_tokens`, `tokens`,
`last_update` of the Python class.  `max_tokens` is an `int` in the source
but participates in rational arithmetic, so it is kept as ℚ here. -/
structure TokenBucket where
  rate : ℚ
  maxTokens : ℚ
  tokens : ℚ
  lastUpdate : ℚ
  deriving DecidableEq

/-- Constructor `TokenBucket.__init__(rate, max_tokens)` executed when the clock reads
`now`: `tokens` starts at `max_tokens` and `last_update` at `now`. -/
def TokenBucket.init (rate maxTokens now : ℚ) : TokenBucket :=
  ⟨rate, maxTokens, maxTokens, now⟩

/-- The quantity `elapsed = now - self.last_update` computed at the top of
`TokenBucket.consume`. -/
def TokenBucket.elapsed (b : TokenBucket) (now : ℚ) : ℚ :=
  now - b.lastUpdate

/-- Method `TokenBucket.consume(tokens=n)` executed when `time.time()` returns
`now`.  Refills `tokens` to `min(max_tokens, tokens + elapsed * rate)`,
advances `last_update`, then consumes `n` tokens iff the refilled amount
is at least `n`.  Returns the boolean result and the new state. -/
def TokenBucket.consume (b : TokenBucket) (now : ℚ) (n : ℚ) :
    Bool × TokenBucket :=
  let refilled := min b.maxTokens (b.tokens + b.elapsed now * b.rate)
  if n ≤ refilled then (true, ⟨b.rate, b.maxTokens, refilled - n, now⟩)
  else (false, ⟨b.rate, b.maxTokens, refilled, now⟩)

/-- Run a sequence of `consume` calls; each list entry is the pair
(clock reading at the call, tokens requested). -/
def TokenBucket.run (b : TokenBucket) : List (ℚ × ℚ) → TokenBucket
  | [] => b
  | c :: rest => ((b.consume c.1 c.2).2.run rest)

/-- The list of boolean results of a sequence of `consume` calls. -/
def TokenBucket.results (b : TokenBucket) : List (ℚ × ℚ) → List Bool
  | [] => []
  | c :: rest => (b.consume c.1 c.2).1 :: (b.consume c.1 c.2).2.results rest

end Microblog

namespace Microblog

theorem consume_lastUpdate (b : TokenBucket) (now n : ℚ) :
    (b.consume now n).2.lastUpdate = now := by
  simp only [TokenBucket.consume]
  split <;> rfl

theorem consume_rate (b : TokenBucket) (now n : ℚ) :
    (b.consume now n).2.rate = b.rate := by
  simp only [TokenBucket.consume]
  split <;> rfl

theorem consume_maxTokens (b : TokenBucket) (now n : ℚ) :
    (b.consume now n).2.maxTokens = b.maxTokens := by
  simp only [TokenBucket.consume]
  split <;> rfl

/-- C1: `consume` always first refills to
`min(max_tokens, tokens + (now - last_update) * rate)` and advances
`last_update` to `now` (also on rejected calls); then it subtracts `n` and
returns true when the refilled amount is at least `n`, and otherwise
returns false leaving the tokens at exactly the refilled amount. -/
theorem C1_consume_refill_then_decide (b : TokenBucket) (now : ℚ) (n : ℕ)
    (hn : 0 < n) :
    (b.consume now n).2.lastUpdate = now ∧
    (((n : ℚ) ≤ min b.maxTokens (b.tokens + (now - b.lastUpdate) * b.rate) →
        (b.consume now n).1 = true ∧
        (b.consume now n).2.tokens =
          min b.maxTokens (b.tokens + (now - b.lastUpdate) * b.rate) - n) ∧
      (¬ (n : ℚ) ≤ min b.maxTokens (b.tokens + (now - b.lastUpdate) * b.rate) →
        (b.consume now n).1 = false ∧
        (b.consume now n).2.tokens =
          min b.maxTokens (b.tokens + (now - b.lastUpdate) * b.rate))) := by
  refine ⟨consume_lastUpdate b now n, fun h => ?_, fun h => ?_⟩
  · simp only [TokenBucket.consume, TokenBucket.elapsed]
    rw [if_pos h]
    exact ⟨rfl, rfl⟩
  · simp only [TokenBucket.consume, TokenBucket.elapsed]
    rw [if_neg h]
    exact ⟨rfl, rfl⟩

theorem C1_consume_refill_then_decide_witness :
    0 < 1 ∧
    ((TokenBucket.init 10 20 0).consume 1 ((1 : ℕ) : ℚ)).1 = true ∧
    ((TokenBucket.init 10 20 0).consume 1 ((1 : ℕ) : ℚ)).2.lastUpdate = 1 := by
  have h := C1_consume_refill_then_decide (TokenBucket.init 10 20 0) 1 1
    (by decide)
  exact ⟨by decide, (h.2.1 (by norm_num [TokenBucket.init])).1, h.1⟩

theorem consume_tokens_bounds (b : TokenBucket) (now n : ℚ)
    (hrate : 0 ≤ b.rate) (hnow : b.lastUpdate ≤ now) (hn : 0 ≤ n)
    (h0 : 0 ≤ b.tokens) (hcap : b.tokens ≤ b.maxTokens) :
    0 ≤ (b.consume now n).2.tokens ∧
    (b.consume now n).2.tokens ≤ b.maxTokens := by
  have hfill : 0 ≤ b.tokens + b.elapsed now * b.rate :=
    add_nonneg h0 (mul_nonneg (sub_nonneg.2 hnow) hrate)
  simp only [TokenBucket.consume]
  split
  · rename_i h
    constructor
    · simpa using sub_nonneg.2 h
    · have := min_le_left b.maxTokens (b.tokens + b.elapsed now * b.rate)
      simp only
      linarith
  · rename_i h
    constructor
    · simp only
      exact le_min (le_trans h0 hcap) hfill
    · simpa using min_le_left _ _

theorem run_tokens_bounds (calls : List (ℚ × ℚ)) (b : TokenBucket)
    (hrate : 0 ≤ b.rate) (h0 : 0 ≤ b.tokens) (hcap : b.tokens ≤ b.maxTokens)
    (htimes : List.Chain (· ≤ ·) b.lastUpdate (calls.map Prod.fst))
    (hns : ∀ c ∈ calls, 0 ≤ c.2) :
    (0 ≤ (b.run calls).tokens ∧ (b.run calls).tokens ≤ (b.run calls).maxTokens) ∧
    (b.run calls).maxTokens = b.maxTokens := by
  induction calls generalizing b with
  | nil => exact ⟨⟨h0, hcap⟩, rfl⟩
  | cons c rest ih =>
    simp only [List.map_cons, List.chain_cons] at htimes
    have hstep := consume_tokens_bounds b c.1 c.2 hrate htimes.1
      (hns c (List.mem_cons_self c rest)) h0 hcap
    have hmax := consume_maxTokens b c.1 c.2
    have hrate' : 0 ≤ (b.consume c.1 c.2).2.rate := by
      rw [consume_rate]; exact hrate
    have htimes' :
        List.Chain (· ≤ ·) (b.consume c.1 c.2).2.lastUpdate
          (rest.map Prod.fst) := by
      rw [consume_lastUpdate]; exact htimes.2
    have := ih (b.consume c.1 c.2).2 hrate' hstep.1 (hmax ▸ hstep.2) htimes'
      (fun d hd => hns d (List.mem_cons_of_mem c hd))
    exact ⟨this.1, by rw [TokenBucket.run]; rw [this.2, hmax]⟩

/-- C2 counterexample: a bucket created with capacity 20 at clock reading
100, whose single `consume` call observes the wall clock at 90 (a backward
clock adjustment), ends with `tokens = -80`, violating `0 ≤ tokens`. -/
theorem C2_invariant_counterexample :
    ((TokenBucket.init 10 20 100).run [(90, 1)]).tokens = -80 ∧
    ¬ (0 ≤ ((TokenBucket.init 10 20 100).run [(90, 1)]).tokens) := by
  norm_num [TokenBucket.run, TokenBucket.consume, TokenBucket.elapsed,
    TokenBucket.init]

/-- C2 (amended): for a bucket created with non-negative capacity and
non-negative refill rate (tokens initialized to capacity), and any
sequence of `consume` calls whose clock readings are nondecreasing
(starting from the creation instant) and whose requested token counts are
non-negative, `0 ≤ tokens ≤ capacity` holds after every call. -/
theorem C2_tokens_bounded (rate cap t0 : ℚ) (calls : List (ℚ × ℚ))
    (hrate : 0 ≤ rate) (hcap : 0 ≤ cap)
    (htimes : List.Chain (· ≤ ·) t0 (calls.map Prod.fst))
    (hns : ∀ c ∈ calls, 0 ≤ c.2) :
    0 ≤ ((TokenBucket.init rate cap t0).run calls).tokens ∧
    ((TokenBucket.init rate cap t0).run calls).tokens ≤ cap := by
  have h := run_tokens_bounds calls (TokenBucket.init rate cap t0) hrate
    hcap le_rfl htimes hns
  refine ⟨h.1.1, ?_⟩
  have h2 := h.1.2
  rw [h.2] at h2
  exact h2

theorem C2_tokens_bounded_witness :
    0 ≤ ((TokenBucket.init 10 20 0).run [(1, 1)]).tokens ∧
    ((TokenBucket.init 10 20 0).run [(1, 1)]).tokens ≤ 20 :=
  C2_tokens_bounded 10 20 0 [(1, 1)] (by norm_num) (by norm_num)
    (List.Chain.cons (by norm_num) List.Chain.nil)
    (by intro c hc; simp at hc; simp [hc])

/-- C7: with the middleware defaults (`requests_per_second = 10`,
`burst = 20`), a bucket created at clock reading `t0` and hit by a burst of
30 `consume(1)` calls all observing the same fixed clock reading `t0`
admits exactly the first 20 and rejects the remaining 10. -/
theorem C7_burst_admits_twenty (t0 : ℚ) :
    (TokenBucket.init 10 20 t0).results (List.replicate 30 (t0, 1)) =
    List.replicate 20 true ++ List.replicate 10 false := by
  norm_num [TokenBucket.results, TokenBucket.consume, TokenBucket.elapsed,
    TokenBucket.init, List.replicate, sub_self]

/-- C8 counterexample: after a first `consume` at wall-clock reading 50,
a second call observing wall-clock reading 49 (the wall clock jumped
backward) computes `elapsed = -1 < 0`: the elapsed value between two
successive calls on the same bucket can be negative, because `consume`
reads `time.time()` (wall clock), not a monotonic clock. -/
theorem C8_elapsed_counterexample :
    (((TokenBucket.init 5 10 50).consume 50 1).2.elapsed 49 = -1) ∧
    ((-1 : ℚ) < 0) := by
  norm_num [TokenBucket.consume, TokenBucket.elapsed, TokenBucket.init]

/-- C8 (amended): `consume` computes `elapsed = now - last_update` from
`time.time()`, the wall clock; nothing prevents a call from observing a
clock reading earlier than `last_update`, in which case `elapsed` is
negative and the refill step strictly decreases the token count. -/
theorem C8_backward_clock_drains (b : TokenBucket) (now n : ℚ)
    (hlt : now < b.lastUpdate) (hrate : 0 < b.rate) (hn : 0 ≤ n) :
    b.elapsed now < 0 ∧ (b.consume now n).2.tokens < b.tokens := by
  have he : b.elapsed now < 0 := sub_neg.2 hlt
  have hdrop : b.tokens + b.elapsed now * b.rate < b.tokens := by
    nlinarith
  have hmin : min b.maxTokens (b.tokens + b.elapsed now * b.rate) < b.tokens :=
    lt_of_le_of_lt (min_le_right _ _) hdrop
  refine ⟨he, ?_⟩
  simp only [TokenBucket.consume]
  split
  · rename_i h
    simp only
    linarith
  · exact hmin

theorem C8_backward_clock_drains_witness :
    ((49 : ℚ) < 50 ∧ (0 : ℚ) < 5 ∧ (0 : ℚ) ≤ 1) ∧
    (TokenBucket.init 5 10 50).elapsed 49 < 0 ∧
    ((TokenBucket.init 5 10 50).consume 49 1).2.tokens <
      (TokenBucket.init 5 10 50).tokens :=
  ⟨⟨by norm_num, by norm_num, by norm_num⟩,
    C8_backward_clock_drains (TokenBucket.init 5 10 50) 49 1
      (by norm_num [TokenBucket.init]) (by norm_num [TokenBucket.init])
      (by norm_num)⟩

/-! ## Ranking — `app/services/ranking.py`, class `RankingService` -/

/-- Read-only view of a post as the ranking code consumes it: `id`,
`author_id`, `content` and `created_at` columns, plus the eagerly loaded
`author.followers` id set used by `calculate_social_score`. -/
structure Post where
  id : String
  authorId : String
  authorFollowers : List String
  content : String
  createdAt : ℚ
  deriving DecidableEq

/-- Viewer as the ranking code consumes it: `id` plus the ids in the
eagerly loaded `following` relationship. -/
structure User where
  id : String
  following : List String
  deriving DecidableEq

/-- The `weights` dict of `calculate_urgency_score` (keys `recency`,
`social`, `quality`). -/
structure Weights where
  recency : ℚ
  social : ℚ
  quality : ℚ
  deriving DecidableEq

/-- Default weights used when `calculate_urgency_score` is called with
`weights=None`. -/
def defaultWeights : Weights := ⟨1/2, 3/10, 1/5⟩

/-- Function `RankingService.calculate_recency_score`, with the clock reading
`datetime.now(timezone.utc)` made an explicit parameter `now`.
`age_seconds = now - post.created_at`; the `0.5 ** (weeks_old - 1)`
branch is modelled with real exponentiation. -/
noncomputable def calculate_recency_score (now : ℚ) (p : Post) : ℝ :=
  let age : ℚ := now - p.createdAt
  if age < 3600 then 1
  else if age < 86400 then 1 - ((age : ℝ) / 86400) * (3/10)
  else if age < 604800 then
    7/10 - (((age : ℝ) - 86400) / (604800 - 86400)) * (4/10)
  else max (1/10) ((3/10) * ((1/2 : ℝ) ^ (((age : ℝ) / 604800) - 1)))

/-- Function `RankingService.calculate_social_score`: 1.0 for a mutual follow,
0.8 for a one-way follow, 0.2 otherwise. -/
def calculate_social_score (p : Post) (u : User) : ℚ :=
  if u.following.contains p.authorId then
    (if p.authorFollowers.contains u.id then 1 else 8/10)
  else 2/10

/-- Function `RankingService.calculate_content_quality_score`: a length-based base
score (Python `len`, i.e. code-point count), a +0.1 bonus when any code
point exceeds 127, and a final clamp at 1.0. -/
def calculate_content_quality_score (p : Post) : ℚ :=
  let contentLength := p.content.length
  let lengthScore : ℚ :=
    if 100 ≤ contentLength ∧ contentLength ≤ 200 then 1
    else if contentLength < 50 then 1/2 + (contentLength : ℚ) / 100
    else if 200 < contentLength then
      min 1 (9/10 + ((contentLength : ℚ) - 200) / 800)
    else 7/10 + ((contentLength : ℚ) - 50) / 167
  let emojiBonus : ℚ :=
    if p.content.any (fun c => 127 < c.toNat) then 1/10 else 0
  min 1 (lengthScore + emojiBonus)

/-- Function `RankingService.calculate_urgency_score` at explicit weights:
`recency * w.recency + social * w.social + quality * w.quality`. -/
noncomputable def calculate_urgency_score (now : ℚ) (p : Post) (u : User)
    (w : Weights) : ℝ :=
  calculate_recency_score now p * (w.recency : ℝ) +
    (calculate_social_score p u : ℝ) * (w.social : ℝ) +
    (calculate_content_quality_score p : ℝ) * (w.quality : ℝ)

theorem recency_score_bounds (now : ℚ) (p : Post) :
    0 ≤ calculate_recency_score now p ∧ calculate_recency_score now p ≤ 1 := by
  simp only [calculate_recency_score]
  split_ifs with h1 h2 h3
  · norm_num
  · rw [not_lt] at h1
    have c1 : (3600 : ℝ) ≤ ((now - p.createdAt : ℚ) : ℝ) := by
      exact_mod_cast h1
    have c2 : ((now - p.createdAt : ℚ) : ℝ) < 86400 := by
      exact_mod_cast h2
    constructor <;> nlinarith
  · rw [not_lt] at h2
    have c2 : (86400 : ℝ) ≤ ((now - p.createdAt : ℚ) : ℝ) := by
      exact_mod_cast h2
    have c3 : ((now - p.createdAt : ℚ) : ℝ) < 604800 := by
      exact_mod_cast h3
    constructor <;> nlinarith
  · rw [not_lt] at h3
    have c3 : (604800 : ℝ) ≤ ((now - p.createdAt : ℚ) : ℝ) := by
      exact_mod_cast h3
    have hexp : (0 : ℝ) ≤ ((now - p.createdAt : ℚ) : ℝ) / 604800 - 1 := by
      rw [sub_nonneg, le_div_iff (by norm_num : (0:ℝ) < 604800)]
      linarith
    have hpow1 : ((1/2 : ℝ) ^ (((now - p.createdAt : ℚ) : ℝ) / 604800 - 1)) ≤ 1 :=
      Real.rpow_le_one (by norm_num) (by norm_num) hexp
    have hpow0 : (0 : ℝ) ≤ ((1/2 : ℝ) ^ (((now - p.createdAt : ℚ) : ℝ) / 604800 - 1)) :=
      Real.rpow_nonneg (by norm_num) _
    constructor
    · exact le_trans (by norm_num) (le_max_left _ _)
    · apply max_le (by norm_num)
      nlinarith

theorem social_score_bounds (p : Post) (u : User) :
    0 ≤ calculate_social_score p u ∧ calculate_social_score p u ≤ 1 := by
  unfold calculate_social_score
  split
  · split <;> norm_num
  · norm_num

theorem quality_score_bounds (p : Post) :
    1/2 ≤ calculate_content_quality_score p ∧
    calculate_content_quality_score p ≤ 1 := by
  unfold calculate_content_quality_score
  refine ⟨?_, min_le_left _ _⟩
  apply le_min (by norm_num)
  have hbonus : (0 : ℚ) ≤
      (if p.content.any (fun c => 127 < c.toNat) then (1:ℚ)/10 else 0) := by
    split <;> norm_num
  have hlen : (1/2 : ℚ) ≤
      (if 100 ≤ p.content.length ∧ p.content.length ≤ 200 then (1 : ℚ)
       else if p.content.length < 50 then 1/2 + (p.content.length : ℚ) / 100
       else if 200 < p.content.length then
         min 1 (9/10 + ((p.content.length : ℚ) - 200) / 800)
       else 7/10 + ((p.content.length : ℚ) - 50) / 167) := by
    split
    · norm_num
    · split
      · have : (0 : ℚ) ≤ (p.content.length : ℚ) := Nat.cast_nonneg _
        linarith
      · split
        · rename_i h1 h2 h3
          apply le_min (by norm_num)
          have : (200 : ℚ) < (p.content.length : ℚ) := by exact_mod_cast h3
          linarith
        · rename_i h1 h2 h3
          rw [not_lt] at h2
          have : (50 : ℚ) ≤ (p.content.length : ℚ) := by exact_mod_cast h2
          linarith
  linarith

/-- C10: for every post content (the empty string included), the content
quality sub-score lies in `[0.5, 1]`: the length-based score is at least
0.5 (its minimum, attained at length 0) and the final `min` with 1 keeps
the score, emoji bonus included, at or below 1 — so no post ever receives
a quality sub-score near 0. -/
theorem C10_quality_score_bounds (p : Post) :
    1/2 ≤ calculate_content_quality_score p ∧
    calculate_content_quality_score p ≤ 1 :=
  quality_score_bounds p

/-- C9 counterexample: at age exactly `HOUR = 3600` the second branch
yields `1 - (3600/86400)*0.3 = 0.9875 = 79/80`, not `1.0`, while one
second earlier the score is still `1.0`: the branch does not decay "from
1.0 at a = HOUR" and the recency function is not continuous at the HOUR
boundary (it drops by 0.0125 there). -/
theorem C9_hour_boundary_counterexample :
    calculate_recency_score 3600 ⟨"p1", "a", [], "", 0⟩ = 79/80 ∧
    calculate_recency_score 3599 ⟨"p1", "a", [], "", 0⟩ = 1 ∧
    (79/80 : ℝ) ≠ 1 := by
  refine ⟨?_, ?_, by norm_num⟩ <;>
    simp only [calculate_recency_score] <;> norm_num

/-- C9 (amended): for every age `a` with `HOUR ≤ a < DAY` the recency
sub-score equals `1.0 - (a/DAY)*0.3`; over that interval the branch decays
linearly from `0.9875` at `a = HOUR` towards `0.7` as `a → DAY`, so the
recency function is discontinuous at the HOUR boundary (its value drops
from `1.0` to `0.9875` there). -/
theorem C9_linear_branch (now : ℚ) (p : Post)
    (h1 : 3600 ≤ now - p.createdAt) (h2 : now - p.createdAt < 86400) :
    calculate_recency_score now p =
      1 - (((now - p.createdAt : ℚ) : ℝ) / 86400) * (3/10) ∧
    7/10 < calculate_recency_score now p ∧
    calculate_recency_score now p ≤ 79/80 := by
  have heq : calculate_recency_score now p =
      1 - (((now - p.createdAt : ℚ) : ℝ) / 86400) * (3/10) := by
    simp only [calculate_recency_score]
    rw [if_neg (not_lt.2 h1), if_pos h2]
  have c1 : (3600 : ℝ) ≤ ((now - p.createdAt : ℚ) : ℝ) := by exact_mod_cast h1
  have c2 : ((now - p.createdAt : ℚ) : ℝ) < 86400 := by exact_mod_cast h2
  refine ⟨heq, ?_, ?_⟩ <;> rw [heq] <;> nlinarith

theorem C9_linear_branch_witness :
    ((3600 : ℚ) ≤ 3600 - 0 ∧ (3600 : ℚ) - 0 < 86400) ∧
    calculate_recency_score 3600 ⟨"p2", "a", [], "", 0⟩ =
      1 - (((3600 - 0 : ℚ) : ℝ) / 86400) * (3/10) := by
  have h := C9_linear_branch 3600 ⟨"p2", "a", [], "", 0⟩
    (by norm_num) (by norm_num)
  exact ⟨⟨by norm_num, by norm_num⟩, h.1⟩

/-- C3 counterexample: the weights `{recency: 1.5, social: -0.25,
quality: -0.25}` sum to 1, yet for a fresh post (recency 1.0) from an
unfollowed author (social 0.2) with empty content (quality 0.5) the
combined score is `1.325 > 1`: summing to 1 alone does not keep the
urgency score in `[0, 1]`. -/
theorem C3_negative_weights_counterexample :
    (3/2 + (-1/4) + (-1/4) : ℚ) = 1 ∧
    calculate_urgency_score 100 ⟨"p1", "a", [], "", 0⟩ ⟨"v", []⟩
      ⟨3/2, -1/4, -1/4⟩ = 53/40 ∧
    ¬ (calculate_urgency_score 100 ⟨"p1", "a", [], "", 0⟩ ⟨"v", []⟩
        ⟨3/2, -1/4, -1/4⟩ ≤ 1) := by
  have hval : calculate_urgency_score 100 ⟨"p1", "a", [], "", 0⟩ ⟨"v", []⟩
      ⟨3/2, -1/4, -1/4⟩ = 53/40 := by
    have hany : ("".any fun c => decide (127 < c.toNat)) = false := by
      rw [String.any_eq]
      rfl
    simp only [calculate_urgency_score, calculate_recency_score,
      calculate_social_score, calculate_content_quality_score]
    norm_num [hany]
  refine ⟨by norm_num, hval, ?_⟩
  rw [hval]
  norm_num

/-- C3 (amended): for every post, viewer and clock reading, and every
weights triple with non-negative components summing to 1 (the default
`{0.5, 0.3, 0.2}` included), the combined urgency score lies in `[0, 1]`.
Non-negativity of the weights is required; summing to 1 alone is not
enough. -/
theorem C3_urgency_score_bounds (now : ℚ) (p : Post) (u : User) (w : Weights)
    (hr : 0 ≤ w.recency) (hs : 0 ≤ w.social) (hq : 0 ≤ w.quality)
    (hsum : w.recency + w.social + w.quality = 1) :
    0 ≤ calculate_urgency_score now p u w ∧
    calculate_urgency_score now p u w ≤ 1 := by
  have hrec := recency_score_bounds now p
  have hsoc := social_score_bounds p u
  have hqual := quality_score_bounds p
  have hr' : (0 : ℝ) ≤ (w.recency : ℝ) := by exact_mod_cast hr
  have hs' : (0 : ℝ) ≤ (w.social : ℝ) := by exact_mod_cast hs
  have hq' : (0 : ℝ) ≤ (w.quality : ℝ) := by exact_mod_cast hq
  have hsum' : (w.recency : ℝ) + (w.social : ℝ) + (w.quality : ℝ) = 1 := by
    exact_mod_cast hsum
  have hsoc0 : (0 : ℝ) ≤ (calculate_social_score p u : ℝ) := by
    exact_mod_cast hsoc.1
  have hsoc1 : (calculate_social_score p u : ℝ) ≤ 1 := by
    exact_mod_cast hsoc.2
  have hqual0 : (0 : ℝ) ≤ (calculate_content_quality_score p : ℝ) := by
    have : (0 : ℚ) ≤ calculate_content_quality_score p := by linarith [hqual.1]
    exact_mod_cast this
  have hqual1 : (calculate_content_quality_score p : ℝ) ≤ 1 := by
    exact_mod_cast hqual.2
  unfold calculate_urgency_score
  constructor
  · have := mul_nonneg hrec.1 hr'
    have := mul_nonneg hsoc0 hs'
    have := mul_nonneg hqual0 hq'
    linarith
  · have h1 : calculate_recency_score now p * (w.recency : ℝ) ≤ w.recency :=
      mul_le_of_le_one_left hr' hrec.2
    have h2 : (calculate_social_score p u : ℝ) * (w.social : ℝ) ≤ w.social :=
      mul_le_of_le_one_left hs' hsoc1
    have h3 : (calculate_content_quality_score p : ℝ) * (w.quality : ℝ) ≤
        w.quality := mul_le_of_le_one_left hq' hqual1
    linarith

theorem C3_urgency_score_bounds_witness :
    ((0 : ℚ) ≤ defaultWeights.recency ∧ (0 : ℚ) ≤ defaultWeights.social ∧
      (0 : ℚ) ≤ defaultWeights.quality ∧
      defaultWeights.recency + defaultWeights.social +
        defaultWeights.quality = 1) ∧
    0 ≤ calculate_urgency_score 100 ⟨"p1", "a", [], "", 0⟩ ⟨"v", []⟩
        defaultWeights ∧
    calculate_urgency_score 100 ⟨"p1", "a", [], "", 0⟩ ⟨"v", []⟩
        defaultWeights ≤ 1 := by
  have h := C3_urgency_score_bounds 100 ⟨"p1", "a", [], "", 0⟩ ⟨"v", []⟩
    defaultWeights (by norm_num [defaultWeights]) (by norm_num [defaultWeights])
    (by norm_num [defaultWeights]) (by norm_num [defaultWeights])
  exact ⟨⟨by norm_num [defaultWeights], by norm_num [defaultWeights],
    by norm_num [defaultWeights], by norm_num [defaultWeights]⟩, h.1, h.2⟩

/-! ## Feed assembly — `get_for_you_feed` (ranking.py) and
`PostService.get_timeline` (services/posts.py) -/

/-- The actual ordering applied by `scored_posts.sort(key=lambda x: x[1],
reverse=True)`: `a` may precede `b` iff `a`'s score is at least `b`'s.
Python's sort is stable; Mathlib's `insertionSort` with this relation has
the same stability. -/
def scoreGe (a b : Post × ℝ) : Prop := b.2 ≤ a.2

instance : IsTotal (Post × ℝ) scoreGe := ⟨fun a b => le_total b.2 a.2⟩

instance : IsTrans (Post × ℝ) scoreGe := ⟨fun _ _ _ hab hbc => le_trans hbc hab⟩

open Classical in
/-- The intermediate `scored_posts` list of `get_for_you_feed` after the
`score >= min_score` filter: each candidate paired with its urgency score,
in candidate order. -/
noncomputable def for_you_filtered (now : ℚ) (u : User) (w : Weights)
    (minScore : ℚ) (cands : List Post) : List (Post × ℝ) :=
  (cands.map (fun p => (p, calculate_urgency_score now p u w))).filter
    (fun x => decide ((minScore : ℝ) ≤ x.2))

open Classical in
/-- The `scored_posts` list after `scored_posts.sort(key=lambda x: x[1],
reverse=True)`: a stable descending sort by score of the filtered list. -/
noncomputable def get_for_you_ranking (now : ℚ) (u : User) (w : Weights)
    (minScore : ℚ) (cands : List Post) : List (Post × ℝ) :=
  List.insertionSort scoreGe (for_you_filtered now u w minScore cands)

/-- Function `RankingService.get_for_you_feed` over an explicit candidate list (the
posts the database query returns): `total = len(scored_posts)` is taken
before the `[offset : offset + limit]` slice. -/
noncomputable def get_for_you_feed (now : ℚ) (u : User) (w : Weights)
    (minScore : ℚ) (limit offset : ℕ) (cands : List Post) :
    List (Post × ℝ) × ℕ :=
  (((get_for_you_ranking now u w minScore cands).drop offset).take limit,
    (get_for_you_ranking now u w minScore cands).length)

/-- The ordering of `PostService.get_timeline`'s query,
`ORDER BY created_at DESC, id DESC`: `a` may precede `b` iff
`(a.createdAt, a.id)` is lexicographically at least `(b.createdAt, b.id)`. -/
def timelineRel (a b : Post) : Prop :=
  b.createdAt < a.createdAt ∨ (a.createdAt = b.createdAt ∧ b.id ≤ a.id)

instance : DecidableRel timelineRel := fun a b =>
  inferInstanceAs (Decidable
    (b.createdAt < a.createdAt ∨ (a.createdAt = b.createdAt ∧ b.id ≤ a.id)))

instance : IsTotal Post timelineRel := ⟨by
  intro a b
  rcases lt_trichotomy a.createdAt b.createdAt with h | h | h
  · exact Or.inr (Or.inl h)
  · rcases le_total a.id b.id with hi | hi
    · exact Or.inr (Or.inr ⟨h.symm, hi⟩)
    · exact Or.inl (Or.inr ⟨h, hi⟩)
  · exact Or.inl (Or.inl h)⟩

instance : IsTrans Post timelineRel := ⟨by
  intro a b c hab hbc
  rcases hab with h1 | ⟨e1, i1⟩ <;> rcases hbc with h2 | ⟨e2, i2⟩
  · exact Or.inl (lt_trans h2 h1)
  · exact Or.inl (e2 ▸ h1)
  · exact Or.inl (e1 ▸ h2)
  · exact Or.inr ⟨e1.trans e2, le_trans i2 i1⟩⟩

/-- The candidates that satisfy `PostService.get_timeline`'s `WHERE
author_id IN following_ids` clause, where `following_ids` is the viewer's
followed ids with the viewer's own id appended. -/
def timeline_filtered (u : User) (cands : List Post) : List Post :=
  cands.filter (fun p => (u.following ++ [u.id]).contains p.authorId)

/-- The filtered candidates in the order of `PostService.get_timeline`'s
`ORDER BY created_at DESC, id DESC`. -/
def timeline_ranked (u : User) (cands : List Post) : List Post :=
  List.insertionSort timelineRel (timeline_filtered u cands)

/-- Function `PostService.get_timeline` over an explicit candidate list: filter to
posts whose `author_id` is among the viewer's followed ids plus the
viewer's own id, count those for `total`, then sort by
`(created_at desc, id desc)` and slice `[offset, offset + limit)`. -/
def get_timeline (u : User) (limit offset : ℕ) (cands : List Post) :
    List Post × ℕ :=
  (((timeline_ranked u cands).drop offset).take limit,
    (timeline_filtered u cands).length)

/-- The ordering of the HTTP timeline route's query
(`app/routers/posts.py`, `get_timeline`), which is `ORDER BY created_at
DESC` only. -/
def routerTimelineRel (a b : Post) : Prop := b.createdAt ≤ a.createdAt

/-- Relational model of the HTTP timeline route's query result before
pagination: any ordering of the filtered candidates consistent with
`ORDER BY created_at DESC` is a possible result, since the query has no
secondary sort key pinning down rows with equal `created_at`. -/
def routerTimelineOutputOK (u : User) (cands out : List Post) : Prop :=
  out.Perm (cands.filter
    (fun p => (u.following ++ [u.id]).contains p.authorId)) ∧
  List.Sorted routerTimelineRel out

theorem append_cons_of_all_eq {α : Type*} {a : α} :
    ∀ (u v : List α), (∀ x ∈ u, x = a) → a :: (u ++ v) = u ++ a :: v := by
  intro u
  induction u with
  | nil => intro v _; rfl
  | cons b u ih =>
    intro v h
    have hb : b = a := h b (List.mem_cons_self _ _)
    subst hb
    have htail := ih v (fun x hx => h x (List.mem_cons_of_mem _ hx))
    simp only [List.cons_append]
    rw [← htail]

theorem sorted_perm_eq_on {α : Type*} {r : α → α → Prop} :
    ∀ {l₁ l₂ : List α}, l₁.Perm l₂ → List.Sorted r l₁ → List.Sorted r l₂ →
      (∀ a ∈ l₁, ∀ b ∈ l₁, r a b → r b a → a = b) → l₁ = l₂ := by
  intro l₁
  induction l₁ with
  | nil =>
    intro l₂ hp _ _ _
    exact hp.nil_eq
  | cons a t ih =>
    intro l₂ hp hs₁ hs₂ hanti
    have ha2 : a ∈ l₂ := hp.subset (List.mem_cons_self a t)
    obtain ⟨u₂, v₂, rfl⟩ := List.append_of_mem ha2
    have hp' : t.Perm (u₂ ++ v₂) := (List.perm_cons a).1 (hp.trans List.perm_middle)
    obtain ⟨h₁, hs₁'⟩ := List.pairwise_cons.1 hs₁
    have ht : t = u₂ ++ v₂ := ih hp' hs₁' (hs₂.sublist (by simp))
      (fun x hx y hy => hanti x (List.mem_cons_of_mem a hx) y
        (List.mem_cons_of_mem a hy))
    subst ht
    exact append_cons_of_all_eq u₂ v₂ (fun x hx => by
      have hra : r x a := (List.pairwise_append.1 hs₂).2.2 x hx a
        (List.mem_cons_self a v₂)
      have har : r a x := h₁ x (List.mem_append_left _ hx)
      exact (hanti a (List.mem_cons_self _ _) x
        (List.mem_cons_of_mem a (List.mem_append_left _ hx)) har hra).symm)

open Classical in
/-- C6: the total returned by `get_for_you_feed` is the number of
candidates whose urgency score is at least `min_score`, and is the same
for every `limit` and `offset`; the page is empty when the candidate set
is empty (with total 0), when `limit = 0` (total still the full filtered
count), and when `offset ≥ total`. -/
theorem C6_for_you_pagination (now : ℚ) (u : User) (w : Weights) (m : ℚ)
    (limit offset : ℕ) (cands : List Post) :
    (get_for_you_feed now u w m limit offset cands).2 =
      cands.countP
        (fun p => decide ((m : ℝ) ≤ calculate_urgency_score now p u w)) ∧
    (∀ limit2 offset2 : ℕ,
      (get_for_you_feed now u w m limit2 offset2 cands).2 =
        (get_for_you_feed now u w m limit offset cands).2) ∧
    (cands = [] → get_for_you_feed now u w m limit offset cands = ([], 0)) ∧
    (limit = 0 → (get_for_you_feed now u w m limit offset cands).1 = []) ∧
    ((get_for_you_feed now u w m limit offset cands).2 ≤ offset →
      (get_for_you_feed now u w m limit offset cands).1 = []) := by
  refine ⟨?_, fun limit2 offset2 => rfl, ?_, ?_, ?_⟩
  · show (get_for_you_ranking now u w m cands).length = _
    unfold get_for_you_ranking
    rw [(List.perm_insertionSort scoreGe
      (for_you_filtered now u w m cands)).length_eq]
    simp only [for_you_filtered]
    rw [← List.countP_eq_length_filter, List.countP_map]
    rfl
  · intro h
    subst h
    simp [get_for_you_feed, get_for_you_ranking, for_you_filtered]
  · intro h
    subst h
    simp [get_for_you_feed]
  · intro h
    show ((get_for_you_ranking now u w m cands).drop offset).take limit = []
    rw [List.drop_eq_nil_of_le h, List.take_nil]

theorem C6_for_you_pagination_witness :
    get_for_you_feed 0 ⟨"v", []⟩ defaultWeights 0 0 0 [] = ([], 0) ∧
    (get_for_you_feed 0 ⟨"v", []⟩ defaultWeights 0 0 0 []).1 = [] ∧
    (get_for_you_feed 0 ⟨"v", []⟩ defaultWeights 0 0 0 []).1 = [] := by
  have h := C6_for_you_pagination 0 ⟨"v", []⟩ defaultWeights 0 0 0 []
  have h3 := h.2.2.1 rfl
  exact ⟨h3, h.2.2.2.1 rfl, h.2.2.2.2 (by rw [h3])⟩

/-- The ordering the spec §4.4 claims for the for-you feed, written from
the spec's words for comparison with the implementation: score descending,
ties broken by `createdAt` descending, then `id` descending. -/
def forYouSpecRel (a b : Post × ℝ) : Prop :=
  b.2 < a.2 ∨
    (a.2 = b.2 ∧
      (b.1.createdAt < a.1.createdAt ∨
        (a.1.createdAt = b.1.createdAt ∧ b.1.id ≤ a.1.id)))

/-- Two candidate posts that tie on every ranking signal: same author,
same content, same `createdAt`; only the ids differ. The database query of
`get_for_you_feed` orders only by `created_at desc`, so it may return them
in either order; here they arrive with ids ascending. -/
def cexPostA : Post := ⟨"a", "z", [], "hi", 5⟩

/-- Companion to `cexPostA` with the larger id `"b"`. -/
def cexPostB : Post := ⟨"b", "z", [], "hi", 5⟩

/-- A viewer following nobody. -/
def cexViewer : User := ⟨"v", []⟩

theorem cex_score_eq :
    calculate_urgency_score 105 cexPostB cexViewer defaultWeights =
      calculate_urgency_score 105 cexPostA cexViewer defaultWeights := rfl

theorem cex_score_val :
    calculate_urgency_score 105 cexPostA cexViewer defaultWeights = 83/125 := by
  have hany : ("hi".any fun c => decide (127 < c.toNat)) = false := by
    rw [String.any_eq]
    rfl
  have hlen : ("hi" : String).length = 2 := rfl
  simp only [calculate_urgency_score, calculate_recency_score,
    calculate_social_score, calculate_content_quality_score, cexPostA,
    cexViewer, defaultWeights]
  norm_num [hany, hlen]

open Classical in
theorem cex_filtered :
    for_you_filtered 105 cexViewer defaultWeights 0 [cexPostA, cexPostB] =
      [(cexPostA, calculate_urgency_score 105 cexPostA cexViewer defaultWeights),
       (cexPostB, calculate_urgency_score 105 cexPostB cexViewer defaultWeights)] := by
  have hA : ((0 : ℚ) : ℝ) ≤
      calculate_urgency_score 105 cexPostA cexViewer defaultWeights := by
    rw [cex_score_val]
    norm_num
  have hB : ((0 : ℚ) : ℝ) ≤
      calculate_urgency_score 105 cexPostB cexViewer defaultWeights := by
    rw [cex_score_eq, cex_score_val]
    norm_num
  simp only [for_you_filtered, List.map_cons, List.map_nil, List.filter_cons,
    List.filter_nil, decide_eq_true_eq]
  rw [if_pos hA, if_pos hB]

open Classical in
theorem cex_ranking :
    get_for_you_ranking 105 cexViewer defaultWeights 0 [cexPostA, cexPostB] =
      [(cexPostA, calculate_urgency_score 105 cexPostA cexViewer defaultWeights),
       (cexPostB, calculate_urgency_score 105 cexPostB cexViewer defaultWeights)] := by
  rw [get_for_you_ranking, cex_filtered]
  simp only [List.insertionSort, List.orderedInsert]
  have hge : scoreGe
      (cexPostA, calculate_urgency_score 105 cexPostA cexViewer defaultWeights)
      (cexPostB, calculate_urgency_score 105 cexPostB cexViewer defaultWeights) :=
    le_of_eq cex_score_eq
  rw [if_pos hge]

/-- C4 counterexample: two equal-score candidates with equal `createdAt`
and ids in ascending order stay in input order after the score sort
(Python's `sort` is stable and only keys on the score), so the output is
not ordered by `id` descending among ties: the claimed
(`score desc, createdAt desc, id desc`) total order does not hold. -/
theorem C4_tie_break_counterexample :
    get_for_you_ranking 105 cexViewer defaultWeights 0 [cexPostA, cexPostB] =
      [(cexPostA, calculate_urgency_score 105 cexPostA cexViewer defaultWeights),
       (cexPostB, calculate_urgency_score 105 cexPostB cexViewer defaultWeights)] ∧
    cexPostA.createdAt = cexPostB.createdAt ∧
    cexPostA.id < cexPostB.id ∧
    ¬ List.Sorted forYouSpecRel
        (get_for_you_ranking 105 cexViewer defaultWeights 0
          [cexPostA, cexPostB]) := by
  refine ⟨cex_ranking, rfl, ?_, ?_⟩
  · show ("a" : String) < "b"
    rw [String.lt_iff_toList_lt]
    decide
  rw [cex_ranking]
  intro hsort
  have hrel := List.rel_of_sorted_cons hsort _ (List.mem_cons_self _ _)
  rcases hrel with hlt | ⟨_, hrest⟩
  · rw [cex_score_eq] at hlt
    exact lt_irrefl _ hlt
  · rcases hrest with hclt | ⟨_, hid⟩
    · simp [cexPostA, cexPostB] at hclt
    · have hnle : ¬ (cexPostB.id ≤ cexPostA.id) := by
        show ¬ (("b" : String) ≤ "a")
        rw [String.le_iff_toList_le]
        decide
      exact hnle hid

open Classical in
/-- C4 (amended): the filtered scored candidates are sorted by score
descending only; the sort is stable, so candidates with equal scores keep
their relative order from the input candidate list (which the database
supplies ordered by `createdAt` descending with no `id` tie-break) — no
`createdAt`/`id` comparison is applied by the sort itself. -/
theorem C4_score_sort_stable (now : ℚ) (u : User) (w : Weights) (m : ℚ)
    (cands : List Post) :
    List.Sorted scoreGe (get_for_you_ranking now u w m cands) ∧
    (get_for_you_ranking now u w m cands).Perm
      (for_you_filtered now u w m cands) ∧
    (∀ a b : Post × ℝ, scoreGe a b →
      [a, b].Sublist (for_you_filtered now u w m cands) →
      [a, b].Sublist (get_for_you_ranking now u w m cands)) := by
  refine ⟨List.sorted_insertionSort scoreGe _, List.perm_insertionSort scoreGe _,
    fun a b hab hsub => List.pair_sublist_insertionSort hab hsub⟩

open Classical in
theorem C4_score_sort_stable_witness :
    List.Sorted scoreGe
      (get_for_you_ranking 105 cexViewer defaultWeights 0
        [cexPostA, cexPostB]) ∧
    [(cexPostA, calculate_urgency_score 105 cexPostA cexViewer defaultWeights),
     (cexPostB, calculate_urgency_score 105 cexPostB cexViewer defaultWeights)].Sublist
      (get_for_you_ranking 105 cexViewer defaultWeights 0
        [cexPostA, cexPostB]) := by
  have h := C4_score_sort_stable 105 cexViewer defaultWeights 0
    [cexPostA, cexPostB]
  refine ⟨h.1, h.2.2 _ _ (le_of_eq cex_score_eq) ?_⟩
  rw [cex_filtered]

/-- A viewer who follows `"z"`, the author of `cexPostA`/`cexPostB`. -/
def cexViewerF : User := ⟨"v", ["z"]⟩

/-- C5 counterexample: the HTTP timeline route (`routers/posts.py`) sorts
only by `created_at desc`, so for two candidate posts by a followed author
with equal `createdAt` and different ids, both output orders are
consistent with the query — the route's result order is not the
`(createdAt desc, id desc)` total order and identical inputs need not
yield identical page order. -/
theorem C5_router_order_counterexample :
    routerTimelineOutputOK cexViewerF [cexPostA, cexPostB]
      [cexPostA, cexPostB] ∧
    routerTimelineOutputOK cexViewerF [cexPostA, cexPostB]
      [cexPostB, cexPostA] ∧
    ([cexPostA, cexPostB] : List Post) ≠ [cexPostB, cexPostA] := by
  have hfilter : ([cexPostA, cexPostB] : List Post).filter
      (fun p => (cexViewerF.following ++ [cexViewerF.id]).contains p.authorId) =
      [cexPostA, cexPostB] := by
    rfl
  have hsortAB : List.Sorted routerTimelineRel [cexPostA, cexPostB] := by
    simp [List.sorted_cons, routerTimelineRel, cexPostA, cexPostB]
  have hsortBA : List.Sorted routerTimelineRel [cexPostB, cexPostA] := by
    simp [List.sorted_cons, routerTimelineRel, cexPostA, cexPostB]
  unfold routerTimelineOutputOK
  rw [hfilter]
  refine ⟨⟨List.Perm.refl _, hsortAB⟩,
    ⟨List.Perm.swap cexPostA cexPostB [], hsortBA⟩, ?_⟩
  · intro h
    have hid : cexPostA.id = cexPostB.id := congrArg Post.id
      (List.head_eq_of_cons_eq h)
    have : ("a" : String) ≠ "b" := by decide
    exact this hid

/-- C5 (amended): `PostService.get_timeline` (services/posts.py) does
behave as claimed: it keeps exactly the candidates whose `authorId` is
among the viewer's followed ids or the viewer's own id, orders them by
`(createdAt desc, id desc)` — a total order whenever ids are distinct —
and therefore yields identical pages for any two candidate lists with the
same elements.  The HTTP route's inline query, by contrast, lacks the `id`
tie-break (see the counterexample). -/
theorem C5_timeline_deterministic (u : User) (limit offset : ℕ)
    (cands : List Post) :
    (∀ p : Post, p ∈ timeline_ranked u cands ↔
      (p ∈ cands ∧ (p.authorId ∈ u.following ∨ p.authorId = u.id))) ∧
    List.Sorted timelineRel (timeline_ranked u cands) ∧
    (∀ cands2 : List Post, cands2.Perm cands →
      List.Pairwise (fun a b : Post => a.id ≠ b.id) cands →
      get_timeline u limit offset cands2 = get_timeline u limit offset cands) := by
  refine ⟨?_, List.sorted_insertionSort timelineRel _, ?_⟩
  · intro p
    rw [timeline_ranked,
      (List.perm_insertionSort timelineRel (timeline_filtered u cands)).mem_iff,
      timeline_filtered, List.mem_filter]
    simp [List.elem_iff, List.mem_append]
  · intro cands2 hperm hnodup
    have hf : (timeline_filtered u cands2).Perm (timeline_filtered u cands) :=
      hperm.filter _
    have hanti : ∀ a ∈ timeline_ranked u cands2, ∀ b ∈ timeline_ranked u cands2,
        timelineRel a b → timelineRel b a → a = b := by
      intro a ha b hb hab hba
      have hmem : ∀ x ∈ timeline_ranked u cands2, x ∈ cands := fun x hx =>
        hperm.subset ((List.filter_sublist _).subset
          ((List.perm_insertionSort timelineRel
            (timeline_filtered u cands2)).subset hx))
      have hid : a.id = b.id := by
        rcases hab with h1 | ⟨e1, i1⟩ <;> rcases hba with h2 | ⟨e2, i2⟩
        · exact absurd h1 (lt_asymm h2)
        · rw [e2] at h1
          exact absurd h1 (lt_irrefl _)
        · rw [← e1] at h2
          exact absurd h2 (lt_irrefl _)
        · exact le_antisymm i2 i1
      by_contra hne
      have hsymm : Symmetric (fun a b : Post => a.id ≠ b.id) :=
        fun x y hxy e => hxy e.symm
      exact hnodup.forall hsymm (hmem a ha) (hmem b hb) hne hid
    have hranked : timeline_ranked u cands2 = timeline_ranked u cands := by
      apply sorted_perm_eq_on
        (((List.perm_insertionSort timelineRel _).trans hf).trans
          (List.perm_insertionSort timelineRel _).symm)
        (List.sorted_insertionSort timelineRel _)
        (List.sorted_insertionSort timelineRel _) hanti
    rw [get_timeline, get_timeline, hranked, hf.length_eq]

theorem C5_timeline_deterministic_witness :
    get_timeline cexViewerF 10 0 [cexPostB, cexPostA] =
      get_timeline cexViewerF 10 0 [cexPostA, cexPostB] ∧
    (cexPostA ∈ timeline_ranked cexViewerF [cexPostA, cexPostB] ↔
      (cexPostA ∈ [cexPostA, cexPostB] ∧
        (cexPostA.authorId ∈ cexViewerF.following ∨
          cexPostA.authorId = cexViewerF.id))) := by
  have h := C5_timeline_deterministic cexViewerF 10 0 [cexPostA, cexPostB]
  refine ⟨h.2.2 [cexPostB, cexPostA] (List.Perm.swap cexPostA cexPostB []) ?_,
    h.1 cexPostA⟩
  refine List.Pairwise.cons ?_ (List.pairwise_singleton _ _)
  intro b hb
  rw [List.mem_singleton] at hb
  subst hb
  show ("a" : String) ≠ "b"
  decide

end Microblog
